import Mathlib

/-!
Verification of the inference pipeline of the plant-disease classifier
web application (`src/web_app.py`, `src/model.py`).

The pure pipeline is embedded shallowly:

* decoded PIL images become a structure carrying dimensions, colour mode
  and a uint8 pixel accessor;
* the numpy/torch array manipulations of `preprocess_image` become exact
  rational arithmetic on shape-annotated arrays;
* `SupConMobileNet` becomes a structure of frozen real-valued parameters
  (the external MobileNetV2 backbone is an abstract frozen feature-map
  function) with `forward` translated line by line from `model.py`;
* `torch.softmax` and `np.argmax` are given their exact-arithmetic
  semantics over the reals (softmax via `Real.exp`, argmax as the
  first-occurrence scan numpy documents);
* the Flask route `predict_route` becomes a function from a request to
  the list of file paths it writes together with either a response or a
  raised error, the latter mapped by the framework boundary to an
  internal-server-error response.
-/

namespace PlantApp

/-- Colour modes of a decoded PIL image relevant to this application. -/
inductive Mode
  | RGB
  | RGBA
  | L
deriving DecidableEq, Repr

/-- Number of channels stored for each mode. -/
def Mode.channels : Mode → Nat
  | .RGB => 3
  | .RGBA => 4
  | .L => 1

/-- A decoded PIL image: height, width, colour mode, and a pixel accessor
`px row col channel` returning the stored uint8 sample (always `< 256`). -/
structure PILImage where
  height : Nat
  width : Nat
  mode : Mode
  px : Nat → Nat → Nat → Nat
  px_lt : ∀ i j c, px i j c < 256

/-- `pil_img.convert("RGB")` (web_app.py line 60): an RGBA image drops its
alpha channel (channels 0..2 pass through), a grayscale image replicates
its single channel, an RGB image is unchanged. -/
def convertRGB (img : PILImage) : PILImage where
  height := img.height
  width := img.width
  mode := .RGB
  px := fun i j c =>
    match img.mode with
    | .RGB => img.px i j c
    | .RGBA => img.px i j c
    | .L => img.px i j 0
  px_lt := by
    intro i j c
    cases img.mode <;> exact img.px_lt ..

/-- Modelled external collaborator `transforms.Resize((256, 256))`
(web_app.py lines 56 and 61): the library's interpolation kernel is
internal to PIL/torchvision; it is modelled as deterministic index-scaled
sampling producing a 256×256 image whose samples are uint8 values taken
from the source grid.  Every property proved below depends only on the
output being a 256×256 image of uint8 samples. -/
def resizeTransform (img : PILImage) : PILImage where
  height := 256
  width := 256
  mode := img.mode
  px := fun i j c => img.px (i * img.height / 256) (j * img.width / 256) c
  px_lt := fun _ _ _ => img.px_lt ..

/-- A 3-dimensional numpy array of exact values (float32 arithmetic is
modelled by exact rationals). -/
structure Arr3 where
  d0 : Nat
  d1 : Nat
  d2 : Nat
  val : Nat → Nat → Nat → ℚ

/-- `np.array(pil_img).astype(np.float32)` (web_app.py line 62) on a
multi-channel image: a (height, width, channels) array of the pixel
samples. -/
def npArrayFloat32 (img : PILImage) : Arr3 where
  d0 := img.height
  d1 := img.width
  d2 := img.mode.channels
  val := fun i j c => (img.px i j c : ℚ)

/-- `np_img / 255.0` (web_app.py line 63). -/
def scaleDiv255 (a : Arr3) : Arr3 where
  d0 := a.d0
  d1 := a.d1
  d2 := a.d2
  val := fun i j c => a.val i j c / 255

/-- `np.transpose(np_img, (2, 0, 1))` (web_app.py line 64): axes
(height, width, channel) become (channel, height, width). -/
def transpose201 (a : Arr3) : Arr3 where
  d0 := a.d2
  d1 := a.d0
  d2 := a.d1
  val := fun c i j => a.val i j c

/-- A 4-dimensional tensor of exact values, `val batch channel row col`. -/
structure Tensor4 where
  batch : Nat
  channels : Nat
  height : Nat
  width : Nat
  val : Nat → Nat → Nat → Nat → ℚ

/-- `torch.tensor(np_img, dtype=torch.float32).unsqueeze(0)`
(web_app.py lines 65-66): copy the values and add a leading batch
dimension of size 1. -/
def tensorUnsqueeze (a : Arr3) : Tensor4 where
  batch := 1
  channels := a.d0
  height := a.d1
  width := a.d2
  val := fun _b c i j => a.val c i j

/-- `preprocess_image` (web_app.py lines 59-67), translated statement by
statement; the final `.to(device)` is a value-preserving device move. -/
def preprocess_image (img : PILImage) : Tensor4 :=
  let pil1 := convertRGB img
  let pil2 := resizeTransform pil1
  let np1 := npArrayFloat32 pil2
  let np2 := scaleDiv255 np1
  let np3 := transpose201 np2
  tensorUnsqueeze np3

/-- The preprocessing output as the specification describes it directly:
a (1, 3, 256, 256) channel-first tensor whose entry at (0, c, i, j) is the
(i, j) pixel of channel c of the RGB-converted, 256×256-resized image,
divided by 255. -/
def specPreprocessedTensor (img : PILImage) : Tensor4 where
  batch := 1
  channels := 3
  height := 256
  width := 256
  val := fun _b c i j => ((resizeTransform (convertRGB img)).px i j c : ℚ) / 255

/-- `mobilenet_v2`'s `last_channel` (model.py line 12): the channel width
of the backbone's final feature map. -/
def FEATURE_DIM : Nat := 1280

/-- Output dimension of the projection head (model.py line 18). -/
def PROJ_DIM : Nat := 128

/-- `SupConMobileNet` (model.py lines 6-22) with `num_classes` output
classes: the pretrained MobileNetV2 backbone is external library code and
is modelled as an arbitrary frozen function from the input tensor to a
(batch, 1280, fh, fw) feature map of reals; the projection head
(`Linear(1280, 1280)`, `ReLU`, `Linear(1280, 128)`) and the classifier
head (`Linear(1280, num_classes)`) are explicit weight matrices and bias
vectors. -/
structure SupConMobileNet (num_classes : Nat) where
  fh : Nat
  fw : Nat
  feature_extractor : Tensor4 → Nat → Fin FEATURE_DIM → Nat → Nat → ℝ
  proj_w1 : Fin FEATURE_DIM → Fin FEATURE_DIM → ℝ
  proj_b1 : Fin FEATURE_DIM → ℝ
  proj_w2 : Fin PROJ_DIM → Fin FEATURE_DIM → ℝ
  proj_b2 : Fin PROJ_DIM → ℝ
  classifier_w : Fin num_classes → Fin FEATURE_DIM → ℝ
  classifier_b : Fin num_classes → ℝ

/-- `nn.Linear`: an affine map given by a weight matrix and a bias. -/
def linearLayer {m n : Nat} (w : Fin m → Fin n → ℝ) (b : Fin m → ℝ)
    (v : Fin n → ℝ) : Fin m → ℝ :=
  fun o => (∑ k, w o k * v k) + b o

/-- `nn.ReLU` applied componentwise. -/
def relu (x : ℝ) : ℝ := max x 0

/-- `F.normalize(v, dim=1)`: divide by the euclidean norm (in exact
arithmetic the zero vector maps to itself, matching PyTorch's
`max(norm, eps)` guard, since division by zero is zero here). -/
noncomputable def l2normalize {n : Nat} (v : Fin n → ℝ) : Fin n → ℝ :=
  fun i => v i / Real.sqrt (∑ j, v j ^ 2)

namespace SupConMobileNet

variable {C : Nat}

/-- `F.adaptive_avg_pool2d(feats, (1, 1)).flatten(1)` applied to the
backbone output (model.py lines 25-26): the mean of each channel's
spatial map, giving one 1280-vector per batch element. -/
noncomputable def pooledFeatures (M : SupConMobileNet C) (x : Tensor4)
    (b : Nat) : Fin FEATURE_DIM → ℝ :=
  fun k =>
    (∑ i ∈ Finset.range M.fh, ∑ j ∈ Finset.range M.fw,
      M.feature_extractor x b k i j) / (M.fh * M.fw)

/-- `self.projection_head` (model.py lines 15-19):
`Linear(1280, 1280)`, `ReLU`, `Linear(1280, 128)`. -/
noncomputable def projectionHead (M : SupConMobileNet C)
    (v : Fin FEATURE_DIM → ℝ) : Fin PROJ_DIM → ℝ :=
  linearLayer M.proj_w2 M.proj_b2 (fun k => relu (linearLayer M.proj_w1 M.proj_b1 v k))

/-- `self.classifier` (model.py line 22): `Linear(1280, num_classes)`. -/
noncomputable def classifierHead (M : SupConMobileNet C)
    (v : Fin FEATURE_DIM → ℝ) : Fin C → ℝ :=
  linearLayer M.classifier_w M.classifier_b v

/-- `SupConMobileNet.forward` (model.py lines 24-31), translated
statement by statement: extract features, pool and flatten, compute the
normalized projection, compute the logits, and return the logits
together with the projection exactly when `return_features` is set. -/
noncomputable def forward (M : SupConMobileNet C) (x : Tensor4)
    (return_features : Bool) :
    (Nat → Fin C → ℝ) × Option (Nat → Fin PROJ_DIM → ℝ) :=
  let feats := fun b => M.pooledFeatures x b
  let proj := fun b => l2normalize (M.projectionHead (feats b))
  let logits := fun b => M.classifierHead (feats b)
  if return_features then (logits, some proj) else (logits, none)

end SupConMobileNet

/-- `LABELS` (web_app.py lines 36-44). -/
def LABELS : List String :=
  ["anthracnose", "healthy", "powdery", "rust", "sooty_mold", "spot", "yellow"]

/-- `NUM_CLASSES` (web_app.py line 47). -/
abbrev NUM_CLASSES : Nat := 7

theorem LABELS_length : LABELS.length = NUM_CLASSES := rfl

/-- `torch.softmax` along the class dimension, on one row of logits:
exact-arithmetic semantics over the reals. -/
noncomputable def softmax {n : Nat} (v : Fin n → ℝ) : Fin n → ℝ :=
  fun i => Real.exp (v i) / ∑ j, Real.exp (v j)

/-- The scan underlying `np.argmax`: run over the remaining indices,
replacing the current best index only on a strictly greater value, so the
first occurrence of the maximum wins. -/
noncomputable def argmaxScan {n : Nat} (v : Fin n → ℝ) :
    List (Fin n) → Fin n → Fin n
  | [], best => best
  | j :: rest, best => argmaxScan v rest (if v best < v j then j else best)

/-- `np.argmax` on the 7-entry probability vector of this application:
start from index 0 and scan indices 1..6 in order. -/
noncomputable def np_argmax (v : Fin NUM_CLASSES → ℝ) : Fin NUM_CLASSES :=
  argmaxScan v [1, 2, 3, 4, 5, 6] 0

/-- `predict` (web_app.py lines 70-77): preprocess, forward with
`return_features=False` under `no_grad`, softmax the logits along the
class dimension, take batch row 0, argmax, and pair the label at the
argmax index with the full probability vector. -/
noncomputable def predict (M : SupConMobileNet NUM_CLASSES) (pil_img : PILImage) :
    String × (Fin NUM_CLASSES → ℝ) :=
  let tensor := preprocess_image pil_img
  let logits := (M.forward tensor false).1
  let probabilities := softmax (logits 0)
  let pred_idx := np_argmax probabilities
  let pred_label := LABELS.get (Fin.cast LABELS_length.symm pred_idx)
  (pred_label, probabilities)

/-! ### Filesystem paths

`os.path.join` and path resolution are modelled over component lists:
a path is its list of `/`-separated components, and resolution folds
away `..` (pop), `.` and empty components. -/

/-- Helper of `splitPath`: split a character list on `/`, carrying the
reversed current component. -/
def splitPathAux : List Char → List Char → List String
  | [], acc => [String.mk acc.reverse]
  | c :: cs, acc =>
    if c = '/' then String.mk acc.reverse :: splitPathAux cs []
    else splitPathAux cs (c :: acc)

/-- Split a client-supplied filename into its `/`-separated components. -/
def splitPath (s : String) : List String := splitPathAux s.data []

/-- Whether a filename is an absolute path (first character `/`). -/
def isAbsolute (fname : String) : Bool :=
  match fname.data with
  | [] => false
  | c :: _ => c = '/'

/-- `os.path.join dir fname` (POSIX): an absolute second argument
discards the first, otherwise the filename's components are appended. -/
def joinPath (dir : List String) (fname : String) : List String :=
  if isAbsolute fname then splitPath fname else dir ++ splitPath fname

/-- One step of path resolution. -/
def resolveStep (acc : List String) (c : String) : List String :=
  if c = ".." then acc.dropLast
  else if c = "." then acc
  else if c = "" then acc
  else acc ++ [c]

/-- Resolve a component path: interpret `..`, `.` and empty components. -/
def resolvePath (p : List String) : List String :=
  p.foldl resolveStep []

/-- A resolved path lies under a directory when the directory's resolved
components are an initial run of the path's resolved components. -/
def insideDir (dir p : List String) : Prop :=
  (resolvePath p).take (resolvePath dir).length = resolvePath dir

instance (dir p : List String) : Decidable (insideDir dir p) := by
  unfold insideDir; infer_instance

/-- `UPLOAD_DIR` (web_app.py line 22): the `uploads` directory next to
the application file, whose own directory is the parameter. -/
def UPLOAD_DIR (appdir : List String) : List String := appdir ++ ["uploads"]

/-! ### The `/predict` route -/

/-- An entry of `request.files`: the client-supplied filename, and the
outcome of decoding the uploaded byte stream (`some` image exactly when
the bytes form a valid image `Image.open` can decode). -/
structure UploadedFile where
  filename : String
  decoded : Option PILImage

/-- The part of a POST request the route reads: `request.files`. -/
structure HttpRequest where
  files : List (String × UploadedFile)

/-- `request.files[key]` lookup. -/
def HttpRequest.getFile (req : HttpRequest) (key : String) : Option UploadedFile :=
  (req.files.find? (fun kv => kv.1 = key)).map (fun kv => kv.2)

/-- The error raised inside the route body: `Image.open` on bytes that
are not a decodable image raises `UnidentifiedImageError`. -/
inductive PipelineError
  | decodeError
deriving DecidableEq

/-- The rendered result page of a successful prediction: the fields
passed to the template at web_app.py lines 588-600. -/
structure ResultPage where
  filename : String
  predicted : String
  confidence_percent : ℝ
  prob_rows : List (String × ℝ)

/-- A response produced by the route body. -/
inductive Response
  | redirectIndex
  | results (page : ResultPage)

/-- `predict_route` (web_app.py lines 568-600): returns the list of
filesystem paths the route writes (the `file.save(filepath)` effect at
line 579) together with the response, or the error it raises.  The
client-supplied filename is joined to the upload directory unchanged.
`round(.., 2)` display rounding of the confidence is abstracted. -/
noncomputable def predict_route (appdir : List String)
    (M : SupConMobileNet NUM_CLASSES) (req : HttpRequest) :
    List (List String) × Except PipelineError Response :=
  match req.getFile "image" with
  | none => ([], .ok .redirectIndex)
  | some file =>
    if file.filename = "" then ([], .ok .redirectIndex)
    else
      let filepath := joinPath (UPLOAD_DIR appdir) file.filename
      match file.decoded with
      | none => ([filepath], .error .decodeError)
      | some pil_img =>
        let r := predict M pil_img
        let prob_rows := LABELS.zip (List.ofFn r.2)
        let confidence_percent :=
          (Finset.univ.sup' Finset.univ_nonempty r.2) * 100
        ([filepath],
          .ok (.results ⟨file.filename, r.1, confidence_percent, prob_rows⟩))

/-- What the HTTP caller observes. -/
inductive ServedOutcome
  | ok (r : Response)
  | internalServerError

/-- The Flask framework boundary around the route body: a response is
passed through, an uncaught exception becomes an HTTP 500
internal-server-error response (the process keeps serving). -/
def flaskServe (out : Except PipelineError Response) : ServedOutcome :=
  match out with
  | .ok r => .ok r
  | .error _ => .internalServerError

/-- The statements executed by the body of `SupConMobileNet.forward`
(model.py lines 25-28), in source order.  Every one of them runs on every
call: the `return_features` flag (line 29) only selects the returned
value, it does not guard any computation. -/
def forwardSteps (return_features : Bool) : List String :=
  ["feature_extractor", "adaptive_avg_pool2d", "projection_head", "classifier"]

/-! ### Concrete fixtures used by witnesses -/

/-- A concrete 1×1 all-black RGB image. -/
def blackImage : PILImage where
  height := 1
  width := 1
  mode := .RGB
  px := fun _ _ _ => 0
  px_lt := fun _ _ _ => by norm_num

/-- A concrete all-zero input tensor of the pipeline's shape. -/
def zeroTensor : Tensor4 where
  batch := 1
  channels := 3
  height := 256
  width := 256
  val := fun _ _ _ _ => 0

/-- A concrete model: 1×1 feature maps that are identically zero, zero
projection first layer, all-ones projection second-layer bias, zero
classifier. -/
noncomputable def zeroishModel : SupConMobileNet NUM_CLASSES where
  fh := 1
  fw := 1
  feature_extractor := fun _ _ _ _ _ => 0
  proj_w1 := fun _ _ => 0
  proj_b1 := fun _ => 0
  proj_w2 := fun _ _ => 0
  proj_b2 := fun _ => 1
  classifier_w := fun _ _ => 0
  classifier_b := fun _ => 0

/-- `zeroishModel` with a different projection head (all biases shifted),
identical everywhere else. -/
noncomputable def zeroishModelAltProj : SupConMobileNet NUM_CLASSES :=
  { zeroishModel with proj_b1 := fun _ => 5, proj_b2 := fun _ => 9 }

end PlantApp

namespace PlantApp

/-! ### C2: preprocessing output shape and range -/

/-- C2: for every decoded input image of any source resolution and colour
mode (RGB, RGBA or grayscale — the quantification covers all three
constructors of `Mode`), `preprocess_image` is defined (total, raising no
exception) and returns a tensor of shape (1, 3, 256, 256) whose every
entry lies in [0, 1]. -/
theorem preprocess_image_shape_range (img : PILImage) :
    (preprocess_image img).batch = 1 ∧
    (preprocess_image img).channels = 3 ∧
    (preprocess_image img).height = 256 ∧
    (preprocess_image img).width = 256 ∧
    ∀ b c i j, 0 ≤ (preprocess_image img).val b c i j ∧
      (preprocess_image img).val b c i j ≤ 1 := by
  refine ⟨rfl, rfl, rfl, rfl, ?_⟩
  intro b c i j
  have hv : (preprocess_image img).val b c i j
      = ((resizeTransform (convertRGB img)).px i j c : ℚ) / 255 := rfl
  rw [hv]
  constructor
  · positivity
  · rw [div_le_one (by norm_num)]
    have h := (resizeTransform (convertRGB img)).px_lt i j c
    exact_mod_cast Nat.le_of_lt_succ h

/-! ### C3: preprocessing performs exactly the specified step sequence -/

/-- C3: `preprocess_image` performs exactly the specified steps on every
decoded image: the colour conversion yields a 3-channel RGB image, the
resize yields 256×256, and the pipeline result equals the
spec-described tensor — pixel values divided by 255 into [0, 1], axes
reordered from (height, width, channel) to (channel, height, width), and
a leading batch dimension of size 1. -/
theorem preprocess_image_step_sequence (img : PILImage) :
    (convertRGB img).mode = .RGB ∧
    (convertRGB img).mode.channels = 3 ∧
    (resizeTransform (convertRGB img)).height = 256 ∧
    (resizeTransform (convertRGB img)).width = 256 ∧
    preprocess_image img = specPreprocessedTensor img := by
  refine ⟨rfl, rfl, rfl, rfl, rfl⟩

/-! ### C9: the pipeline is deterministic -/

/-- C9: the pipeline is a pure function of its inputs — running the
preprocessing twice on the same decoded image produces identical tensors,
running the model in evaluation mode (`forward` with
`return_features=False`, as `predict` invokes it) twice on the same
tensor with the same loaded weights produces identical logits, and
consequently two runs of `predict` on the same image agree.  The
embedding is exact-arithmetic, so "bit-identical" is plain equality. -/
theorem pipeline_deterministic (M : SupConMobileNet NUM_CLASSES)
    (img img' : PILImage) (x x' : Tensor4)
    (himg : img = img') (hx : x = x') :
    preprocess_image img = preprocess_image img' ∧
    M.forward x false = M.forward x' false ∧
    predict M img = predict M img' := by
  subst himg
  subst hx
  exact ⟨rfl, rfl, rfl⟩

/-! ### C4: the probability vector is a softmax distribution -/

lemma sum_exp_pos {n : Nat} [NeZero n] (v : Fin n → ℝ) :
    0 < ∑ j, Real.exp (v j) :=
  Finset.sum_pos (fun j _ => Real.exp_pos (v j)) Finset.univ_nonempty

lemma softmax_nonneg {n : Nat} [NeZero n] (v : Fin n → ℝ) (i : Fin n) :
    0 ≤ softmax v i :=
  div_nonneg (Real.exp_pos (v i)).le (sum_exp_pos v).le

lemma softmax_le_one {n : Nat} [NeZero n] (v : Fin n → ℝ) (i : Fin n) :
    softmax v i ≤ 1 := by
  unfold softmax
  rw [div_le_one (sum_exp_pos v)]
  exact Finset.single_le_sum (f := fun j => Real.exp (v j))
    (fun j _ => (Real.exp_pos (v j)).le) (Finset.mem_univ i)

lemma softmax_sum_eq_one {n : Nat} [NeZero n] (v : Fin n → ℝ) :
    ∑ i, softmax v i = 1 := by
  unfold softmax
  rw [← Finset.sum_div]
  exact div_self (sum_exp_pos v).ne'

/-- C4: for every model and every decoded image, the probability vector
returned by `predict` is the softmax of the batch-0 row of the logits
returned by the forward pass; it has exactly 7 entries, each entry lies
in [0, 1], and the entries sum to 1 exactly — in particular within the
claimed 1e-5 tolerance. -/
theorem predict_probabilities_softmax (M : SupConMobileNet NUM_CLASSES)
    (img : PILImage) :
    (predict M img).2 = softmax ((M.forward (preprocess_image img) false).1 0) ∧
    (List.ofFn (predict M img).2).length = 7 ∧
    (∀ i, 0 ≤ (predict M img).2 i ∧ (predict M img).2 i ≤ 1) ∧
    (∑ i, (predict M img).2 i) = 1 ∧
    |(∑ i, (predict M img).2 i) - 1| ≤ 1 / 100000 := by
  have hsum : (∑ i, (predict M img).2 i) = 1 :=
    softmax_sum_eq_one ((M.forward (preprocess_image img) false).1 0)
  refine ⟨rfl, rfl, fun i => ⟨softmax_nonneg _ i, softmax_le_one _ i⟩, hsum, ?_⟩
  rw [hsum]
  norm_num

/-! ### C1: the predicted label is the first-occurrence argmax -/

/-- Invariant of the argmax scan: starting from `best` with the remaining
indices `l` strictly ascending and all above `best`, the scan result
dominates `best` and everything in `l`, is one of the scanned indices,
and strictly dominates every strictly smaller scanned index (first
occurrence of the maximum wins). -/
lemma argmaxScan_spec {n : Nat} (v : Fin n → ℝ) (l : List (Fin n)) :
    ∀ best : Fin n, (best :: l).Pairwise (· < ·) →
      v best ≤ v (argmaxScan v l best) ∧
      (∀ j ∈ l, v j ≤ v (argmaxScan v l best)) ∧
      (argmaxScan v l best = best ∨ argmaxScan v l best ∈ l) ∧
      (∀ j ∈ l, j < argmaxScan v l best → v j < v (argmaxScan v l best)) ∧
      (best < argmaxScan v l best → v best < v (argmaxScan v l best)) := by
  induction l with
  | nil =>
    intro best _
    refine ⟨le_refl _, by simp, Or.inl rfl, by simp, ?_⟩
    intro h
    exact absurd h (lt_irrefl best)
  | cons j rest ih =>
    intro best hp
    have hbj : best < j := (List.pairwise_cons.mp hp).1 j (List.mem_cons_self j rest)
    have hp' : (j :: rest).Pairwise (· < ·) := (List.pairwise_cons.mp hp).2
    have hjrest : ∀ k ∈ rest, j < k := (List.pairwise_cons.mp hp').1
    have hbrest : ∀ k ∈ rest, best < k := fun k hk =>
      (List.pairwise_cons.mp hp).1 k (List.mem_cons_of_mem _ hk)
    by_cases h : v best < v j
    · have hscan : argmaxScan v (j :: rest) best = argmaxScan v rest j := by
        simp [argmaxScan, if_pos h]
      have hpb : (j :: rest).Pairwise (· < ·) := hp'
      obtain ⟨ih1, ih2, ih3, ih4, ih5⟩ := ih j hpb
      rw [hscan]
      refine ⟨le_of_lt (lt_of_lt_of_le h ih1), ?_, ?_, ?_, ?_⟩
      · intro k hk
        rcases List.mem_cons.mp hk with rfl | hk'
        · exact ih1
        · exact ih2 k hk'
      · rcases ih3 with h3 | h3
        · exact Or.inr (by rw [h3]; exact List.mem_cons_self j rest)
        · exact Or.inr (List.mem_cons_of_mem _ h3)
      · intro k hk hkr
        rcases List.mem_cons.mp hk with heq | hk'
        · -- k = j and j < scan result, so the result lies in rest
          subst heq
          have hr : argmaxScan v rest k ∈ rest := by
            rcases ih3 with h3 | h3
            · rw [h3] at hkr
              exact absurd hkr (lt_irrefl _)
            · exact h3
          exact ih5 (hjrest _ hr)
        · exact ih4 k hk' hkr
      · intro _
        exact lt_of_lt_of_le h ih1
    · have hscan : argmaxScan v (j :: rest) best = argmaxScan v rest best := by
        simp [argmaxScan, if_neg h]
      have hpb : (best :: rest).Pairwise (· < ·) := by
        rw [List.pairwise_cons]
        exact ⟨hbrest, (List.pairwise_cons.mp hp').2⟩
      obtain ⟨ih1, ih2, ih3, ih4, ih5⟩ := ih best hpb
      rw [hscan]
      refine ⟨ih1, ?_, ?_, ?_, ih5⟩
      · intro k hk
        rcases List.mem_cons.mp hk with heq | hk'
        · rw [heq]
          exact le_trans (le_of_not_lt h) ih1
        · exact ih2 k hk'
      · rcases ih3 with h3 | h3
        · exact Or.inl h3
        · exact Or.inr (List.mem_cons_of_mem _ h3)
      · intro k hk hkr
        rcases List.mem_cons.mp hk with heq | hk'
        · -- k = j: the result lies in rest, hence strictly above best
          subst heq
          have hr : argmaxScan v rest best ∈ rest := by
            rcases ih3 with h3 | h3
            · rw [h3] at hkr
              exact absurd (lt_trans hbj hkr) (lt_irrefl _)
            · exact h3
          have hbr : best < argmaxScan v rest best := hbrest _ hr
          exact lt_of_le_of_lt (le_of_not_lt h) (ih5 hbr)
        · exact ih4 k hk' hkr

/-- `np_argmax` attains the maximum of the vector and strictly beats
every smaller index: first-occurrence tie-breaking. -/
lemma np_argmax_spec (v : Fin NUM_CLASSES → ℝ) :
    (∀ j, v j ≤ v (np_argmax v)) ∧
    (∀ j, j < np_argmax v → v j < v (np_argmax v)) := by
  have hp : ((0 : Fin 7) :: [1, 2, 3, 4, 5, 6]).Pairwise (· < ·) := by decide
  obtain ⟨h1, h2, _h3, h4, h5⟩ := argmaxScan_spec v [1, 2, 3, 4, 5, 6] 0 hp
  have hall : ∀ j : Fin 7, j = 0 ∨ j ∈ ([1, 2, 3, 4, 5, 6] : List (Fin 7)) := by
    decide
  constructor
  · intro j
    rcases hall j with rfl | hj
    · exact h1
    · exact h2 j hj
  · intro j hj
    rcases hall j with rfl | hmem
    · exact h5 hj
    · exact h4 j hmem hj

/-- C1: for every model and decoded image, the label returned by
`predict` is the `LABELS` entry at the first-occurrence argmax index of
the returned probability vector; that index attains the maximum
probability and strictly beats every lower index, so the returned label
is always the label of the maximum probability with ties broken by the
lowest index. -/
theorem predict_label_is_argmax (M : SupConMobileNet NUM_CLASSES)
    (img : PILImage) :
    (predict M img).1 =
      LABELS.get (Fin.cast LABELS_length.symm (np_argmax (predict M img).2)) ∧
    (∀ j, (predict M img).2 j ≤ (predict M img).2 (np_argmax (predict M img).2)) ∧
    (∀ j, j < np_argmax (predict M img).2 →
      (predict M img).2 j < (predict M img).2 (np_argmax (predict M img).2)) :=
  ⟨rfl, (np_argmax_spec _).1, (np_argmax_spec _).2⟩

/-! ### C5: the forward contract -/

lemma l2normalize_sumSq {n : Nat} (v : Fin n → ℝ)
    (h : (∑ i, v i ^ 2) ≠ 0) : ∑ i, l2normalize v i ^ 2 = 1 := by
  have hS : 0 ≤ ∑ j, v j ^ 2 := Finset.sum_nonneg fun j _ => sq_nonneg _
  have hsq : Real.sqrt (∑ j, v j ^ 2) ^ 2 = ∑ j, v j ^ 2 := Real.sq_sqrt hS
  unfold l2normalize
  calc ∑ i, (v i / Real.sqrt (∑ j, v j ^ 2)) ^ 2
      = ∑ i, v i ^ 2 / (∑ j, v j ^ 2) := by
        refine Finset.sum_congr rfl fun i _ => ?_
        rw [div_pow, hsq]
    _ = (∑ i, v i ^ 2) / (∑ j, v j ^ 2) := by rw [Finset.sum_div]
    _ = 1 := div_self h

/-- C5: `forward` is a pure function of the input tensor and the frozen
parameters: its logits component is the classifier head applied to the
pooled backbone features regardless of the flag; with the embedding flag
unset no embedding is returned; with it set the returned embedding is the
L2-normalization of the 128-dimensional projection-head output — in
particular of unit euclidean norm whenever the projection output is not
the zero vector. -/
theorem forward_contract {C : Nat} (M : SupConMobileNet C) (x : Tensor4) :
    (M.forward x true).1 = (fun b => M.classifierHead (M.pooledFeatures x b)) ∧
    (M.forward x false).1 = (M.forward x true).1 ∧
    (M.forward x false).2 = none ∧
    (M.forward x true).2 =
      some (fun b => l2normalize (M.projectionHead (M.pooledFeatures x b))) ∧
    ∀ e, (M.forward x true).2 = some e →
      ∀ b, (∑ i, M.projectionHead (M.pooledFeatures x b) i ^ 2) ≠ 0 →
        ∑ i, e b i ^ 2 = 1 := by
  refine ⟨rfl, rfl, rfl, rfl, ?_⟩
  intro e he b hb
  have hsome : some (fun b => l2normalize (M.projectionHead (M.pooledFeatures x b)))
      = some e := by rw [← he]; rfl
  have he2 := Option.some.inj hsome
  rw [← he2]
  exact l2normalize_sumSq _ hb

/-- The projection-head output of the witness model on the all-zero
tensor is the all-ones vector. -/
lemma zeroishModel_projectionHead (i : Fin PROJ_DIM) :
    zeroishModel.projectionHead (zeroishModel.pooledFeatures zeroTensor 0) i = 1 := by
  simp [zeroishModel, SupConMobileNet.projectionHead, SupConMobileNet.pooledFeatures,
    linearLayer, relu]

/-- Witness for C5 at a concrete model, tensor and batch row. -/
theorem forward_contract_witness :
    ∑ i, (fun b => l2normalize (zeroishModel.projectionHead
      (zeroishModel.pooledFeatures zeroTensor b))) 0 i ^ 2 = 1 := by
  refine (forward_contract zeroishModel zeroTensor).2.2.2.2 _ rfl 0 ?_
  have hsum : (∑ i, zeroishModel.projectionHead
      (zeroishModel.pooledFeatures zeroTensor 0) i ^ 2) = 128 := by
    rw [Finset.sum_congr rfl fun i _ => by rw [zeroishModel_projectionHead i, one_pow]]
    simp [PROJ_DIM]
  rw [hsum]
  norm_num

/-! ### C7: the projection head on the inference path -/

/-- C7 counterexample: with the embedding output disabled
(`return_features := false`, the inference path), the statement list
executed by the body of `forward` still contains the projection head —
model.py line 27 runs unconditionally — so the claim that its computation
is skipped fails on this concrete input. -/
theorem forwardSteps_false_computes_projection :
    "projection_head" ∈ forwardSteps false := by decide

/-- C7 amended: on the inference path the projection head's output is
computed but discarded — it is not part of the returned value
(`forward x false` returns no embedding) and contributes nothing to the
returned logits: two models agreeing on the backbone and the classifier
head but with arbitrarily different projection-head parameters produce
identical `forward x false` results. -/
theorem forward_projectionHead_frame {C : Nat} (M M' : SupConMobileNet C)
    (x : Tensor4) (hfh : M.fh = M'.fh) (hfw : M.fw = M'.fw)
    (hfe : M.feature_extractor = M'.feature_extractor)
    (hcw : M.classifier_w = M'.classifier_w)
    (hcb : M.classifier_b = M'.classifier_b) :
    M.forward x false = M'.forward x false ∧
    (M.forward x false).2 = none := by
  have h1 : M.forward x false
      = (fun b => M.classifierHead (M.pooledFeatures x b), none) := rfl
  have h2 : M'.forward x false
      = (fun b => M'.classifierHead (M'.pooledFeatures x b), none) := rfl
  have hlog : (fun b => M.classifierHead (M.pooledFeatures x b))
      = (fun b => M'.classifierHead (M'.pooledFeatures x b)) := by
    funext b o
    unfold SupConMobileNet.classifierHead SupConMobileNet.pooledFeatures linearLayer
    rw [hfe, hfh, hfw, hcw, hcb]
  refine ⟨?_, rfl⟩
  rw [h1, h2, hlog]

/-- Witness for the amended C7: two concrete models differing exactly in
their projection-head biases yield the same inference-path output. -/
theorem forward_projectionHead_frame_witness :
    zeroishModel.forward zeroTensor false
      = zeroishModelAltProj.forward zeroTensor false ∧
    (zeroishModel.forward zeroTensor false).2 = none :=
  forward_projectionHead_frame zeroishModel zeroishModelAltProj zeroTensor
    rfl rfl rfl rfl rfl

/-- Witness for C9 at concrete inputs. -/
theorem pipeline_deterministic_witness :
    preprocess_image blackImage = preprocess_image blackImage ∧
    zeroishModel.forward zeroTensor false = zeroishModel.forward zeroTensor false ∧
    predict zeroishModel blackImage = predict zeroishModel blackImage :=
  pipeline_deterministic zeroishModel blackImage blackImage zeroTensor zeroTensor rfl rfl

/-! ### C6: undecodable uploads -/

/-- C6: for every request whose uploaded "image" file has a non-empty
filename but a byte stream that cannot be decoded as an image, the route
raises the decode error; the framework boundary turns it into a reported
error response to the caller (the process keeps serving), and no
prediction — in particular no silent default one — is produced. -/
theorem predict_route_decode_error (appdir : List String)
    (M : SupConMobileNet NUM_CLASSES) (req : HttpRequest) (f : UploadedFile)
    (hget : req.getFile "image" = some f)
    (hname : f.filename ≠ "") (hdec : f.decoded = none) :
    (predict_route appdir M req).2 = .error .decodeError ∧
    flaskServe (predict_route appdir M req).2 = .internalServerError ∧
    (∀ page, (predict_route appdir M req).2 ≠ .ok (.results page)) := by
  have hroute : (predict_route appdir M req).2 = .error .decodeError := by
    simp [predict_route, hget, hname, hdec]
  refine ⟨hroute, by rw [hroute]; rfl, ?_⟩
  intro page
  rw [hroute]
  intro h
  exact Except.noConfusion h

/-- Witness for C6 at a concrete undecodable upload. -/
theorem predict_route_decode_error_witness :
    (predict_route [] zeroishModel
        ⟨[("image", ⟨"corrupt.png", none⟩)]⟩).2 = .error .decodeError ∧
    flaskServe (predict_route [] zeroishModel
        ⟨[("image", ⟨"corrupt.png", none⟩)]⟩).2 = .internalServerError ∧
    (∀ page, (predict_route [] zeroishModel
        ⟨[("image", ⟨"corrupt.png", none⟩)]⟩).2 ≠ .ok (.results page)) :=
  predict_route_decode_error [] zeroishModel _ ⟨"corrupt.png", none⟩
    (by simp [HttpRequest.getFile]) (by simp) rfl

/-! ### C8: full distribution with labels in fixed order -/

/-- C8: for every request whose uploaded file decodes to a valid image,
the route renders a result page whose predicted label is a member of the
fixed 7-entry label set and whose probability table pairs the labels, in
the fixed `LABELS` order, with the full 7-entry probability vector
returned by `predict` — never just the top class. -/
theorem predict_route_full_distribution (appdir : List String)
    (M : SupConMobileNet NUM_CLASSES) (req : HttpRequest) (f : UploadedFile)
    (img : PILImage) (hget : req.getFile "image" = some f)
    (hname : f.filename ≠ "") (hdec : f.decoded = some img) :
    ∃ page, (predict_route appdir M req).2 = .ok (.results page) ∧
      page.predicted = (predict M img).1 ∧
      page.predicted ∈ LABELS ∧
      page.prob_rows.map Prod.fst = LABELS ∧
      page.prob_rows.length = NUM_CLASSES ∧
      page.prob_rows.map Prod.snd = List.ofFn (predict M img).2 := by
  have hlen : LABELS.length ≤ (List.ofFn (predict M img).2).length := by
    simp [LABELS]
  refine ⟨⟨f.filename, (predict M img).1,
    (Finset.univ.sup' Finset.univ_nonempty (predict M img).2) * 100,
    LABELS.zip (List.ofFn (predict M img).2)⟩, ?_, rfl, ?_, ?_, ?_, ?_⟩
  · simp [predict_route, hget, hname, hdec]
  · exact List.get_mem LABELS _ _
  · exact List.map_fst_zip _ _ hlen
  · simp [List.length_zip, LABELS]
  · exact List.map_snd_zip _ _ (le_of_eq (by simp [LABELS]))

/-- Witness for C8 at a concrete decodable upload. -/
theorem predict_route_full_distribution_witness :
    ∃ page, (predict_route [] zeroishModel
        ⟨[("image", ⟨"leaf.png", some blackImage⟩)]⟩).2 = .ok (.results page) ∧
      page.predicted = (predict zeroishModel blackImage).1 ∧
      page.predicted ∈ LABELS ∧
      page.prob_rows.map Prod.fst = LABELS ∧
      page.prob_rows.length = NUM_CLASSES ∧
      page.prob_rows.map Prod.snd = List.ofFn (predict zeroishModel blackImage).2 :=
  predict_route_full_distribution [] zeroishModel _ ⟨"leaf.png", some blackImage⟩
    blackImage (by simp [HttpRequest.getFile]) (by simp) rfl

/-! ### C10: the upload path is attacker-controlled -/

lemma foldl_resolveStep_clean (l : List String)
    (h : ∀ c ∈ l, c ≠ ".." ∧ c ≠ "." ∧ c ≠ "") :
    ∀ acc, l.foldl resolveStep acc = acc ++ l := by
  induction l with
  | nil => intro acc; simp
  | cons c rest ih =>
    intro acc
    have hc := h c (List.mem_cons_self c rest)
    have hrest : ∀ d ∈ rest, d ≠ ".." ∧ d ≠ "." ∧ d ≠ "" :=
      fun d hd => h d (List.mem_cons_of_mem _ hd)
    have hstep : resolveStep acc c = acc ++ [c] := by
      unfold resolveStep
      rw [if_neg hc.1, if_neg hc.2.1, if_neg hc.2.2]
    rw [List.foldl_cons, hstep, ih hrest, List.append_assoc]
    rfl

lemma resolvePath_clean (l : List String)
    (h : ∀ c ∈ l, c ≠ ".." ∧ c ≠ "." ∧ c ≠ "") : resolvePath l = l := by
  unfold resolvePath
  rw [foldl_resolveStep_clean l h []]
  rfl

lemma resolvePath_append (p q : List String) :
    resolvePath (p ++ q) = q.foldl resolveStep (resolvePath p) := by
  unfold resolvePath
  rw [List.foldl_append]

/-- C10: `predict_route` saves every accepted upload at the path obtained
by joining the upload directory with the client-supplied filename
unchanged; and for the client-supplied filename `"../evil.png"` the
written path resolves to a location outside the upload directory (one
level above it). -/
theorem predict_route_path_traversal (appdir : List String)
    (M : SupConMobileNet NUM_CLASSES)
    (hclean : ∀ c ∈ appdir, c ≠ ".." ∧ c ≠ "." ∧ c ≠ "") :
    (∀ (req : HttpRequest) (f : UploadedFile),
      req.getFile "image" = some f → f.filename ≠ "" →
      (predict_route appdir M req).1 = [joinPath (UPLOAD_DIR appdir) f.filename]) ∧
    resolvePath (joinPath (UPLOAD_DIR appdir) "../evil.png")
      = appdir ++ ["evil.png"] ∧
    ¬ insideDir (UPLOAD_DIR appdir) (joinPath (UPLOAD_DIR appdir) "../evil.png") := by
  have hcleanu : ∀ c ∈ UPLOAD_DIR appdir, c ≠ ".." ∧ c ≠ "." ∧ c ≠ "" := by
    intro c hc
    rcases List.mem_append.mp hc with hc' | hc'
    · exact hclean c hc'
    · rcases List.mem_singleton.mp hc' with rfl
      refine ⟨by decide, by decide, by decide⟩
  have hsplit : splitPath "../evil.png" = ["..", "evil.png"] := by decide
  have hjoin : joinPath (UPLOAD_DIR appdir) "../evil.png"
      = (appdir ++ ["uploads"]) ++ ["..", "evil.png"] := by
    unfold joinPath UPLOAD_DIR
    rw [if_neg (by decide), hsplit]
  have hresdir : resolvePath (appdir ++ ["uploads"]) = appdir ++ ["uploads"] := by
    have := resolvePath_clean _ hcleanu
    rwa [show UPLOAD_DIR appdir = appdir ++ ["uploads"] from rfl] at this
  have hres : resolvePath (joinPath (UPLOAD_DIR appdir) "../evil.png")
      = appdir ++ ["evil.png"] := by
    rw [hjoin, resolvePath_append, hresdir]
    have h1 : resolveStep (appdir ++ ["uploads"]) ".." = appdir := by
      unfold resolveStep
      rw [if_pos rfl, List.dropLast_concat]
    have h2 : resolveStep appdir "evil.png" = appdir ++ ["evil.png"] := by
      unfold resolveStep
      rw [if_neg (by decide), if_neg (by decide), if_neg (by decide)]
    rw [List.foldl_cons, h1, List.foldl_cons, h2, List.foldl_nil]
  refine ⟨?_, hres, ?_⟩
  · intro req f hget hname
    cases hdec : f.decoded with
    | none => simp [predict_route, hget, hname, hdec]
    | some img => simp [predict_route, hget, hname, hdec]
  · unfold insideDir
    rw [hres, show UPLOAD_DIR appdir = appdir ++ ["uploads"] from rfl, hresdir]
    have hlen : (appdir ++ ["uploads"]).length = appdir.length + 1 := by simp
    have htake : (appdir ++ ["evil.png"]).take (appdir ++ ["uploads"]).length
        = appdir ++ ["evil.png"] := by
      rw [hlen, show appdir.length + 1 = (appdir ++ ["evil.png"]).length by simp,
        List.take_length]
    rw [htake]
    intro heq
    have h3 : ["evil.png"] = ["uploads"] := List.append_cancel_left heq
    have h4 : ("evil.png" : String) = "uploads" := by
      injection h3
    exact (by decide : ("evil.png" : String) ≠ "uploads") h4

/-- Witness for C10 at a concrete application directory and request. -/
theorem predict_route_path_traversal_witness :
    (predict_route ["home", "user"] zeroishModel
        ⟨[("image", ⟨"../evil.png", none⟩)]⟩).1
      = [joinPath (UPLOAD_DIR ["home", "user"]) "../evil.png"] ∧
    resolvePath (joinPath (UPLOAD_DIR ["home", "user"]) "../evil.png")
      = ["home", "user", "evil.png"] ∧
    ¬ insideDir (UPLOAD_DIR ["home", "user"])
        (joinPath (UPLOAD_DIR ["home", "user"]) "../evil.png") := by
  have h := predict_route_path_traversal ["home", "user"] zeroishModel (by decide)
  exact ⟨h.1 _ ⟨"../evil.png", none⟩ (by simp [HttpRequest.getFile]) (by simp),
    h.2.1, h.2.2⟩

end PlantApp
